import Mathlib

/-!
Verification of the companion webui module-list logic: the product-catalog
merge (`useAllConnectionProducts`), the text filter (`filterProducts`), the
store-info subscription hook (`useModuleStoreInfo`) and the candidate-list
construction of `AddConnectionsPanel`, embedded shallowly from the
TypeScript sources.
-/

namespace Companion

/-- Base metadata of an installed module (`moduleInfo.baseInfo` in the source). -/
structure ModuleBaseInfo where
  id : String
  products : List String
  keywords : Option (List String)
  name : String
  manufacturer : String
  shortname : String
  deriving DecidableEq, Repr

/-- An installed-module record; only `baseInfo` is read by the merge. -/
structure NewClientModuleInfo where
  baseInfo : ModuleBaseInfo
  deriving DecidableEq, Repr

/-- A store-catalog record (`ModuleStoreListCacheEntry` in the source). -/
structure ModuleStoreListCacheEntry where
  id : String
  products : List String
  keywords : Option (List String)
  name : String
  manufacturer : String
  shortname : String
  deriving DecidableEq, Repr

/-- The merged product record (`FuzzyProduct` in the source). -/
structure FuzzyProduct where
  id : String
  installedInfo : Option NewClientModuleInfo
  storeInfo : Option ModuleStoreListCacheEntry
  product : String
  keywords : String
  name : String
  manufacturer : String
  shortname : String
  deriving DecidableEq, Repr

/-- `keywords?.join(';') ?? ''` from the source. -/
def joinKeywords : Option (List String) → String
  | none => ""
  | some ks => String.intercalate ";" ks

/-- The composite key `` `${id}-${product}` `` from the source. -/
def prodKey (id product : String) : String := id ++ "-" ++ product

/-- A JavaScript `Record<string, β>`: an insertion-ordered association list. -/
abbrev JsRecord (β : Type) := List (String × β)

/-- The key set of a record, in insertion order. -/
def recKeys {β : Type} (acc : JsRecord β) : List String := acc.map (·.1)

/-- `acc[key] = v`: overwrite in place if the key exists, else append. -/
def recordSet {β : Type} (acc : JsRecord β) (key : String) (v : β) : JsRecord β :=
  if key ∈ recKeys acc then
    acc.map (fun kv => if kv.1 = key then (key, v) else kv)
  else
    acc ++ [(key, v)]

/-- `acc[key]` lookup. -/
def recGet {β : Type} (acc : JsRecord β) (key : String) : Option β :=
  match acc with
  | [] => none
  | kv :: rest => if kv.1 = key then some kv.2 else recGet rest key

/-- The Product built from an installed module in the first loop of
`useAllConnectionProducts`: `storeInfo = null`. -/
def mkInstalledProduct (m : NewClientModuleInfo) (product : String) : FuzzyProduct :=
  { id := m.baseInfo.id
    installedInfo := some m
    storeInfo := none
    product := product
    keywords := joinKeywords m.baseInfo.keywords
    name := m.baseInfo.name
    manufacturer := m.baseInfo.manufacturer
    shortname := m.baseInfo.shortname }

/-- The Product built from a store entry in the second loop when the key is
new: `installedInfo = null`. -/
def mkStoreProduct (m : ModuleStoreListCacheEntry) (product : String) : FuzzyProduct :=
  { id := m.id
    installedInfo := none
    storeInfo := some m
    product := product
    keywords := joinKeywords m.keywords
    name := m.name
    manufacturer := m.manufacturer
    shortname := m.shortname }

/-- Inner first loop of `useAllConnectionProducts`: fold one installed
module's products into the record. -/
def addInstalledModule (acc : JsRecord FuzzyProduct) (m : NewClientModuleInfo) :
    JsRecord FuzzyProduct :=
  m.baseInfo.products.foldl
    (fun acc product =>
      recordSet acc (prodKey m.baseInfo.id product) (mkInstalledProduct m product))
    acc

/-- One step of the second loop: if the composite key already exists only
`storeInfo` is attached to the existing record, otherwise a new Product with
`installedInfo = null` is appended. -/
def addStoreProduct (acc : JsRecord FuzzyProduct) (m : ModuleStoreListCacheEntry)
    (product : String) : JsRecord FuzzyProduct :=
  let key := prodKey m.id product
  if key ∈ recKeys acc then
    acc.map (fun kv => if kv.1 = key then (kv.1, { kv.2 with storeInfo := some m }) else kv)
  else
    acc ++ [(key, mkStoreProduct m product)]

/-- Fold one store entry's products into the record. -/
def addStoreModule (acc : JsRecord FuzzyProduct) (m : ModuleStoreListCacheEntry) :
    JsRecord FuzzyProduct :=
  m.products.foldl (fun acc product => addStoreProduct acc m product) acc

/-- The first loop of `useAllConnectionProducts`: start with all installed
modules. -/
def foldInstalled (installed : List NewClientModuleInfo) : JsRecord FuzzyProduct :=
  installed.foldl addInstalledModule []

/-- The second loop of `useAllConnectionProducts`: add in the store modules. -/
def foldStore (acc : JsRecord FuzzyProduct) (store : List ModuleStoreListCacheEntry) :
    JsRecord FuzzyProduct :=
  store.foldl addStoreModule acc

/-- `useAllConnectionProducts`: installed modules folded first, store entries
second, then `Object.values`. The two map collections are given in their
iteration order. -/
def useAllConnectionProducts (installed : List NewClientModuleInfo)
    (store : List ModuleStoreListCacheEntry) : List FuzzyProduct :=
  (foldStore (foldInstalled installed) store).map (·.2)

/-- The fixed ordered field set passed to the fuzzy matcher in
`filterProducts`. -/
def fuzzyKeys : List String := ["product", "name", "manufacturer", "keywords"]

/-- Field access by key name, as the fuzzy matcher reads the records. -/
def getField (p : FuzzyProduct) : String → String
  | "product" => p.product
  | "name" => p.name
  | "manufacturer" => p.manufacturer
  | "keywords" => p.keywords
  | _ => ""

/-- The type of the external fuzzy ranking collaborator `fuzzysort.go`:
query, items, key list, threshold. -/
abbrev RankFn := String → List FuzzyProduct → List String → Int → List FuzzyProduct

/-- `filterProducts`: empty query returns the input unchanged, otherwise the
query is delegated to the fuzzy ranking collaborator with the four fixed keys
and threshold `-10_000`. -/
def filterProducts (fuzzySearch : RankFn) (allProducts : List FuzzyProduct)
    (filter : String) : List FuzzyProduct :=
  if filter = "" then allProducts
  else fuzzySearch filter allProducts fuzzyKeys (-10000)

/-- ASCII-lowered code point of a character. -/
def lowerCode (c : Char) : Nat :=
  let n := c.toNat
  if 65 ≤ n ∧ n ≤ 90 then n + 32 else n

/-- In-order subsequence test, the core acceptance notion of the external
fuzzy matcher. -/
def isSubseq : List Nat → List Nat → Bool
  | [], _ => true
  | _ :: _, [] => false
  | a :: as, b :: bs => if a = b then isSubseq as bs else isSubseq (a :: as) bs

/-- Whether `query` fuzzy-matches `target` (case-insensitive subsequence). -/
def fuzzyMatches (query target : String) : Bool :=
  isSubseq (query.toList.map lowerCode) (target.toList.map lowerCode)

/-- The documented contract of the external fuzzy ranking collaborator: it
returns a sublist of items, each accepted because some of the requested key
fields fuzzy-matches the query. -/
def RankContract (rank : RankFn) : Prop :=
  ∀ q ps ks th, ∀ p ∈ rank q ps ks th,
    p ∈ ps ∧ ∃ k ∈ ks, fuzzyMatches q (getField p k) = true

/-- A concrete ranking function obeying `RankContract`, used to instantiate
the collaborator in closed computations. -/
def rankModel : RankFn := fun q ps ks _ =>
  ps.filter (fun p => ks.any (fun k => fuzzyMatches q (getField p k)))

/-! ### The `useModuleStoreInfo` subscription hook

The hook's effect lifecycle is embedded as a step relation on an explicit
state.  One effect generation corresponds to one run of the `useEffect` body
with a defined module id; its closure's `destroyed` flag is the membership of
that generation in `destroyedGens`.  The socket traffic is recorded in `log`.
-/

/-- The subscription payload (`ModuleStoreModuleInfoStore`). -/
structure StoreData where
  lastUpdated : Nat
  updateWarning : Option String
  deriving DecidableEq, Repr

/-- A request emitted on the socket by the hook. -/
inductive SocketMsg where
  | subscribe (moduleId : String)
  | unsubscribe (moduleId : String)
  deriving DecidableEq, Repr

/-- The state of one `useModuleStoreInfo` view instance. -/
structure HookState where
  /-- `moduleStoreCache`; what the hook returns. -/
  cache : Option StoreData
  /-- The active effect generation and its module id, when the last effect
  run subscribed (defined module id) and was not cleaned up yet. -/
  current : Option (Nat × String)
  /-- Next fresh effect generation. -/
  nextGen : Nat
  /-- Generations whose cleanup has run (their `destroyed` flag is set). -/
  destroyedGens : List Nat
  /-- Socket requests emitted so far, in order. -/
  log : List SocketMsg
  /-- The dependency value of the last effect run (`none` = never ran). -/
  lastDep : Option (Option String)
  deriving DecidableEq, Repr

/-- State before the component mounts. -/
def initState : HookState :=
  { cache := none
    current := none
    nextGen := 0
    destroyedGens := []
    log := []
    lastDep := none }

/-- The cleanup function returned by the effect: set `destroyed`, remove the
push handler, reset the cache and emit a best-effort unsubscribe.  An effect
run with an undefined module id registered no cleanup, so this is a no-op. -/
def cleanup (s : HookState) : HookState :=
  match s.current with
  | none => s
  | some (g, m) =>
      { s with
        current := none
        destroyedGens := g :: s.destroyedGens
        cache := none
        log := s.log ++ [SocketMsg.unsubscribe m] }

/-- The effect body: with an undefined module id it only resets the cache and
returns early; otherwise it resets the cache, emits a subscribe and registers
the push handler for a fresh generation. -/
def runEffect (s : HookState) (mid : Option String) : HookState :=
  match mid with
  | none => { s with cache := none, current := none }
  | some m =>
      { s with
        cache := none
        current := some (s.nextGen, m)
        nextGen := s.nextGen + 1
        log := s.log ++ [SocketMsg.subscribe m] }

/-- External events a view instance reacts to. -/
inductive Event where
  /-- Render with this `moduleId` prop (mount or prop change); the effect
  re-runs only when the dependency changed. -/
  | setModule (mid : Option String)
  /-- Component teardown. -/
  | unmount
  /-- The subscribe promise of effect generation `g` resolves. -/
  | response (g : Nat) (d : StoreData)
  /-- A `modules-store:info:data` push for module `mid` is delivered. -/
  | push (mid : String) (d : StoreData)
  deriving DecidableEq, Repr

/-- One step of the view instance. -/
def step (s : HookState) : Event → HookState
  | Event.setModule mid =>
      if s.lastDep = some mid then s
      else runEffect { cleanup s with lastDep := some mid } mid
  | Event.unmount => { cleanup s with lastDep := none }
  | Event.response g d =>
      if g ∈ s.destroyedGens then s else { s with cache := some d }
  | Event.push mid d =>
      match s.current with
      | some (_, m) => if mid = m then { s with cache := some d } else s
      | none => s

/-- Run a sequence of events from a state. -/
def runTrace (s : HookState) (evs : List Event) : HookState :=
  evs.foldl step s

/-- Number of subscribe requests in a log. -/
def subCount (log : List SocketMsg) : Nat :=
  (log.filter (fun msg => match msg with | SocketMsg.subscribe _ => true | _ => false)).length

/-- Number of unsubscribe requests in a log. -/
def unsubCount (log : List SocketMsg) : Nat :=
  (log.filter (fun msg => match msg with | SocketMsg.unsubscribe _ => true | _ => false)).length

/-! ### The candidates list of `AddConnectionsPanel` -/

/-- The elements the panel can place in the `candidates` array. -/
inductive PanelElem where
  | entry (name : String)
  | warningBanner (msg : String)
  deriving DecidableEq, Repr

/-- Insert into a list sorted by lowercase key (the panel's
`toLocaleLowerCase` comparison sort of `Object.entries`). -/
def insertByKeyLower (kv : String × PanelElem) :
    List (String × PanelElem) → List (String × PanelElem)
  | [] => [kv]
  | hd :: tl =>
      if kv.1.toLower < hd.1.toLower then kv :: hd :: tl
      else hd :: insertByKeyLower kv tl

/-- Sort entries by lowercase key. -/
def sortByKeyLower (l : List (String × PanelElem)) : List (String × PanelElem) :=
  l.foldr insertByKeyLower []

/-- The body of the panel's `try` block, after the fallible search/entry
construction produced either a result list or a thrown error: build the
`candidatesObj` record keyed by product name, then sort when the filter is
empty.  The surrounding `catch` replaces the candidates with a single inline
warning banner. -/
def compileCandidates (searchResults : Except String (List FuzzyProduct))
    (filter : String) : List PanelElem :=
  match searchResults with
  | Except.error e =>
      [PanelElem.warningBanner ("Failed to build list of modules:" ++ e)]
  | Except.ok rs =>
      let obj : JsRecord PanelElem :=
        rs.foldl (fun acc p => recordSet acc p.name (PanelElem.entry p.name)) []
      if filter = "" then (sortByKeyLower obj).map (·.2)
      else obj.map (·.2)

/-- Whether a panel element is a module candidate entry (not a banner). -/
def PanelElem.isEntry : PanelElem → Bool
  | PanelElem.entry _ => true
  | PanelElem.warningBanner _ => false

/-! ### Key-set machinery for the merge counting claims -/

/-- Effect on the key list of one JS record assignment: keep it if the key is
present, else append. -/
def insKey (ks : List String) (k : String) : List String :=
  if k ∈ ks then ks else ks ++ [k]

/-- Fold `insKey` over a key sequence. -/
def insKeysAll (ks init : List String) : List String := ks.foldl insKey init

/-- The composite keys contributed by the installed modules, in iteration
order. -/
def installedKeys (installed : List NewClientModuleInfo) : List String :=
  installed.flatMap (fun m => m.baseInfo.products.map (prodKey m.baseInfo.id))

/-- The composite keys contributed by the store entries, in iteration order. -/
def storeKeysOf (store : List ModuleStoreListCacheEntry) : List String :=
  store.flatMap (fun m => m.products.map (prodKey m.id))

/-- The `(id, product)` pairs of the installed modules. -/
def installedPairs (installed : List NewClientModuleInfo) : List (String × String) :=
  installed.flatMap (fun m => m.baseInfo.products.map (fun p => (m.baseInfo.id, p)))

/-- The `(id, product)` pairs of the store entries. -/
def storePairs (store : List ModuleStoreListCacheEntry) : List (String × String) :=
  store.flatMap (fun m => m.products.map (fun p => (m.id, p)))

/-- Union of two key lists, keeping the left list and the new right keys. -/
def keyUnion (xs ys : List String) : List String :=
  xs ++ ys.filter (fun k => decide (k ∉ xs))

/-- All entries of a JS record about a given key satisfy `Q`. -/
def keyAll (acc : JsRecord FuzzyProduct) (k : String) (Q : FuzzyProduct → Prop) : Prop :=
  ∀ kv ∈ acc, kv.1 = k → Q kv.2

/-- The at-most-one-subscription invariant of a hook state: every subscribe
but the active one has been matched by an unsubscribe. -/
def subInv (s : HookState) : Prop :=
  subCount s.log = unsubCount s.log + (if s.current.isSome then 1 else 0)

/-! ### Concrete records used in scenario claims and witnesses -/

/-- Installed module of the spec scenario: `{id:"x", products:["p1"], name:"Foo"}`. -/
def instFooX : NewClientModuleInfo :=
  { baseInfo :=
    { id := "x"
      products := ["p1"]
      keywords := none
      name := "Foo"
      manufacturer := "Acme"
      shortname := "foo" } }

/-- Store entry of the spec scenario: `{id:"x", products:["p1","p2"], name:"Foo"}`. -/
def storeFooX : ModuleStoreListCacheEntry :=
  { id := "x"
    products := ["p1", "p2"]
    keywords := some ["k1"]
    name := "Foo"
    manufacturer := "AcmeStore"
    shortname := "foost" }

/-- Expected merged record `x-p1`: both infos set, installed-derived fields. -/
def mergedFooP1 : FuzzyProduct :=
  { id := "x"
    installedInfo := some instFooX
    storeInfo := some storeFooX
    product := "p1"
    keywords := ""
    name := "Foo"
    manufacturer := "Acme"
    shortname := "foo" }

/-- Expected merged record `x-p2`: `installedInfo` null, store-derived fields. -/
def mergedFooP2 : FuzzyProduct :=
  { id := "x"
    installedInfo := none
    storeInfo := some storeFooX
    product := "p2"
    keywords := "k1"
    name := "Foo"
    manufacturer := "AcmeStore"
    shortname := "foost" }

/-- A product none of whose searchable fields contains the letters of
`"foo"`. -/
def prodBaz : FuzzyProduct :=
  { id := "baz"
    installedInfo := some { baseInfo :=
      { id := "baz"
        products := ["p"]
        keywords := none
        name := "Baz"
        manufacturer := "B"
        shortname := "baz" } }
    storeInfo := none
    product := "p"
    keywords := ""
    name := "Baz"
    manufacturer := "B"
    shortname := "baz" }

/-- Installed module `{id:"a", products:["b-c"]}`: its one composite key is
`"a-b-c"`. -/
def instAmod : NewClientModuleInfo :=
  { baseInfo :=
    { id := "a"
      products := ["b-c"]
      keywords := none
      name := "A"
      manufacturer := ""
      shortname := "a" } }

/-- Store entry `{id:"a-b", products:["c"]}`: its one composite key is also
`"a-b-c"`. -/
def storeABmod : ModuleStoreListCacheEntry :=
  { id := "a-b"
    products := ["c"]
    keywords := none
    name := "AB"
    manufacturer := ""
    shortname := "ab" }

/-- A hook state with one active subscription, for witnesses. -/
def traceX : HookState := runTrace initState [Event.setModule (some "X")]

/-- A sample subscription payload. -/
def sampleData : StoreData := { lastUpdated := 1, updateWarning := none }

/-! ## Helper lemmas -/

theorem foldl_inv {α β : Type} (P : β → Prop) (f : β → α → β)
    (hf : ∀ b a, P b → P (f b a)) :
    ∀ (l : List α) (b : β), P b → P (l.foldl f b)
  | [], _, hb => hb
  | a :: l, b, hb => foldl_inv P f hf l (f b a) (hf b a hb)

theorem pairP_recordSet {β : Type} (Qp : String × β → Prop) (acc : JsRecord β)
    (k : String) (v : β) (ha : ∀ kv ∈ acc, Qp kv) (hv : Qp (k, v)) :
    ∀ kv ∈ recordSet acc k v, Qp kv := by
  intro kv hkv
  unfold recordSet at hkv
  split at hkv
  · rcases List.mem_map.mp hkv with ⟨kv0, h0, heq⟩
    by_cases hc : kv0.1 = k
    · rw [if_pos hc] at heq
      rw [← heq]; exact hv
    · rw [if_neg hc] at heq
      rw [← heq]; exact ha kv0 h0
  · rcases List.mem_append.mp hkv with h | h
    · exact ha kv h
    · rw [List.mem_singleton.mp h]; exact hv

theorem pairP_addStoreProduct (Qp : String × FuzzyProduct → Prop)
    (acc : JsRecord FuzzyProduct) (m : ModuleStoreListCacheEntry) (p : String)
    (ha : ∀ kv ∈ acc, Qp kv)
    (hupd : ∀ kv, Qp kv → Qp (kv.1, { kv.2 with storeInfo := some m }))
    (hnew : Qp (prodKey m.id p, mkStoreProduct m p)) :
    ∀ kv ∈ addStoreProduct acc m p, Qp kv := by
  intro kv hkv
  simp only [addStoreProduct] at hkv
  split at hkv
  · rcases List.mem_map.mp hkv with ⟨kv0, h0, heq⟩
    by_cases hc : kv0.1 = prodKey m.id p
    · rw [if_pos hc] at heq
      rw [← heq]; exact hupd kv0 (ha kv0 h0)
    · rw [if_neg hc] at heq
      rw [← heq]; exact ha kv0 h0
  · rcases List.mem_append.mp hkv with h | h
    · exact ha kv h
    · rw [List.mem_singleton.mp h]; exact hnew

theorem pairP_addInstalledModule (Qp : String × FuzzyProduct → Prop)
    (acc : JsRecord FuzzyProduct) (m : NewClientModuleInfo)
    (ha : ∀ kv ∈ acc, Qp kv)
    (hnew : ∀ p, Qp (prodKey m.baseInfo.id p, mkInstalledProduct m p)) :
    ∀ kv ∈ addInstalledModule acc m, Qp kv := by
  unfold addInstalledModule
  exact foldl_inv (fun acc => ∀ kv ∈ acc, Qp kv) _
    (fun acc p hacc => pairP_recordSet Qp acc _ _ hacc (hnew p))
    m.baseInfo.products acc ha

theorem pairP_foldInstalled (Qp : String × FuzzyProduct → Prop)
    (installed : List NewClientModuleInfo)
    (hnew : ∀ (m : NewClientModuleInfo) p, Qp (prodKey m.baseInfo.id p, mkInstalledProduct m p)) :
    ∀ kv ∈ foldInstalled installed, Qp kv := by
  unfold foldInstalled
  exact foldl_inv (fun acc => ∀ kv ∈ acc, Qp kv) addInstalledModule
    (fun acc m hacc => pairP_addInstalledModule Qp acc m hacc (hnew m))
    installed [] (by intro kv h; cases h)

theorem pairP_addStoreModule (Qp : String × FuzzyProduct → Prop)
    (acc : JsRecord FuzzyProduct) (m : ModuleStoreListCacheEntry)
    (ha : ∀ kv ∈ acc, Qp kv)
    (hupd : ∀ kv, Qp kv → Qp (kv.1, { kv.2 with storeInfo := some m }))
    (hnew : ∀ p, Qp (prodKey m.id p, mkStoreProduct m p)) :
    ∀ kv ∈ addStoreModule acc m, Qp kv := by
  unfold addStoreModule
  exact foldl_inv (fun acc => ∀ kv ∈ acc, Qp kv) _
    (fun acc p hacc => pairP_addStoreProduct Qp acc m p hacc hupd (hnew p))
    m.products acc ha

theorem pairP_foldStore (Qp : String × FuzzyProduct → Prop)
    (store : List ModuleStoreListCacheEntry) (acc : JsRecord FuzzyProduct)
    (ha : ∀ kv ∈ acc, Qp kv)
    (hupd : ∀ (m : ModuleStoreListCacheEntry) kv, Qp kv → Qp (kv.1, { kv.2 with storeInfo := some m }))
    (hnew : ∀ (m : ModuleStoreListCacheEntry) p, Qp (prodKey m.id p, mkStoreProduct m p)) :
    ∀ kv ∈ foldStore acc store, Qp kv := by
  unfold foldStore
  exact foldl_inv (fun acc => ∀ kv ∈ acc, Qp kv) addStoreModule
    (fun acc m hacc => pairP_addStoreModule Qp acc m hacc (hupd m) (hnew m))
    store acc ha

/-! ## Claims -/

/-- C2: for every pair of inputs, every Product in the output of
`useAllConnectionProducts` has at least one of `installedInfo` and
`storeInfo` non-null. -/
theorem useAllConnectionProducts_infoNonNull (installed : List NewClientModuleInfo)
    (store : List ModuleStoreListCacheEntry) (p : FuzzyProduct)
    (hp : p ∈ useAllConnectionProducts installed store) :
    p.installedInfo.isSome = true ∨ p.storeInfo.isSome = true := by
  rcases List.mem_map.mp hp with ⟨kv, hkv, hkvp⟩
  have h := pairP_foldStore
    (fun kv => kv.2.installedInfo.isSome = true ∨ kv.2.storeInfo.isSome = true)
    store (foldInstalled installed)
    (pairP_foldInstalled _ installed (fun m p => Or.inl rfl))
    (fun m kv _ => Or.inr rfl)
    (fun m p => Or.inr rfl)
    kv hkv
  rw [← hkvp]; exact h

/-- Witness for C2 at the spec scenario. -/
theorem useAllConnectionProducts_infoNonNull_witness :
    mergedFooP1 ∈ useAllConnectionProducts [instFooX] [storeFooX]
    ∧ (mergedFooP1.installedInfo.isSome = true ∨ mergedFooP1.storeInfo.isSome = true) :=
  ⟨by decide, useAllConnectionProducts_infoNonNull [instFooX] [storeFooX] mergedFooP1 (by decide)⟩

/-- C1: installed modules are folded first (each Product gets
`storeInfo = null`), store entries second (a new key gets
`installedInfo = null`); and on the spec scenario
`installed = [x:[p1] Foo]`, `store = [x:[p1,p2] Foo]` the merge yields exactly
`x-p1` with both infos set and `x-p2` with `installedInfo` null. -/
theorem useAllConnectionProducts_mergeOrder (installed : List NewClientModuleInfo)
    (store : List ModuleStoreListCacheEntry) (p q : FuzzyProduct)
    (hp : p ∈ useAllConnectionProducts installed [])
    (hq : q ∈ useAllConnectionProducts [] store) :
    (p.storeInfo = none ∧ p.installedInfo.isSome = true)
    ∧ (q.installedInfo = none ∧ q.storeInfo.isSome = true)
    ∧ useAllConnectionProducts [instFooX] [storeFooX] = [mergedFooP1, mergedFooP2] := by
  refine ⟨?_, ?_, by decide⟩
  · rcases List.mem_map.mp hp with ⟨kv, hkv, hkvp⟩
    have hkv2 : kv ∈ foldInstalled installed := hkv
    have h := pairP_foldInstalled
      (fun kv => kv.2.storeInfo = none ∧ kv.2.installedInfo.isSome = true)
      installed (fun m p => ⟨rfl, rfl⟩) kv hkv2
    rw [← hkvp]; exact h
  · rcases List.mem_map.mp hq with ⟨kv, hkv, hkvp⟩
    have h := pairP_foldStore
      (fun kv => kv.2.installedInfo = none ∧ kv.2.storeInfo.isSome = true)
      store (foldInstalled [])
      (by intro kv h; cases h)
      (fun m kv hkv => ⟨hkv.1, rfl⟩)
      (fun m p => ⟨rfl, rfl⟩)
      kv hkv
    rw [← hkvp]; exact h

/-- Witness for C1: concrete member of each phase plus the scenario. -/
theorem useAllConnectionProducts_mergeOrder_witness :
    ((mkInstalledProduct instFooX "p1").storeInfo = none
      ∧ (mkInstalledProduct instFooX "p1").installedInfo.isSome = true)
    ∧ ((mkStoreProduct storeFooX "p2").installedInfo = none
      ∧ (mkStoreProduct storeFooX "p2").storeInfo.isSome = true)
    ∧ useAllConnectionProducts [instFooX] [storeFooX] = [mergedFooP1, mergedFooP2] :=
  useAllConnectionProducts_mergeOrder [instFooX] [storeFooX]
    (mkInstalledProduct instFooX "p1") (mkStoreProduct storeFooX "p2")
    (by decide) (by decide)

/-- C4: `filterProducts` with an empty query string returns exactly its input
list, same elements, same length, same order. -/
theorem filterProducts_empty_query (rank : RankFn) (ps : List FuzzyProduct) :
    filterProducts rank ps "" = ps := by
  simp [filterProducts]

/-- C9: when the candidates-list construction of `AddConnectionsPanel` throws,
the error is caught at the list-building boundary and surfaced as a single
inline warning banner; no module candidate entry remains in the list, and no
error propagates (`compileCandidates` is total). -/
theorem addConnectionsPanel_catchBoundary (e filterStr : String) :
    compileCandidates (Except.error e) filterStr
      = [PanelElem.warningBanner ("Failed to build list of modules:" ++ e)]
    ∧ ((compileCandidates (Except.error e) filterStr).all (fun x => !x.isEntry)) = true :=
  ⟨rfl, rfl⟩

theorem rankModel_contract : RankContract rankModel := by
  intro q ps ks th p hp
  simp only [rankModel] at hp
  rw [List.mem_filter] at hp
  refine ⟨hp.1, ?_⟩
  rcases List.any_eq_true.mp hp.2 with ⟨k, hk, hmk⟩
  exact ⟨k, hk, hmk⟩

/-- C6: for every non-empty query, `filterProducts` delegates to the fuzzy
ranking collaborator with exactly the ordered field set
`[product, name, manufacturer, keywords]` and threshold `-10_000` and returns
its items; under the collaborator's contract a query matching none of the four
fields of any product yields `[]`, and the empty input list yields `[]`. -/
theorem filterProducts_delegates (rank : RankFn) (hrank : RankContract rank)
    (ps : List FuzzyProduct) (q : String) (hq : q ≠ "") :
    filterProducts rank ps q = rank q ps fuzzyKeys (-10000)
    ∧ ((∀ p ∈ ps, ∀ k ∈ fuzzyKeys, fuzzyMatches q (getField p k) = false) →
        filterProducts rank ps q = [])
    ∧ filterProducts rank [] q = [] := by
  have hdel : ∀ ps2 : List FuzzyProduct,
      filterProducts rank ps2 q = rank q ps2 fuzzyKeys (-10000) := by
    intro ps2; simp [filterProducts, hq]
  refine ⟨hdel ps, ?_, ?_⟩
  · intro hnone
    rw [hdel ps, List.eq_nil_iff_forall_not_mem]
    intro p hp
    obtain ⟨hps, k, hk, hm⟩ := hrank q ps fuzzyKeys (-10000) p hp
    have hf := hnone p hps k hk
    rw [hf] at hm
    exact Bool.noConfusion hm
  · rw [hdel [], List.eq_nil_iff_forall_not_mem]
    intro p hp
    obtain ⟨hps, _⟩ := hrank q [] fuzzyKeys (-10000) p hp
    cases hps

/-- Witness for C6: the query `"foo"` against a product whose fields are
`p/Baz/B/` matches no field, so the result is empty. -/
theorem filterProducts_delegates_witness :
    filterProducts rankModel [prodBaz] "foo" = rankModel "foo" [prodBaz] fuzzyKeys (-10000)
    ∧ filterProducts rankModel [prodBaz] "foo" = []
    ∧ filterProducts rankModel [] "foo" = [] := by
  obtain ⟨h1, h2, h3⟩ :=
    filterProducts_delegates rankModel rankModel_contract [prodBaz] "foo" (by decide)
  exact ⟨h1, h2 (by decide), h3⟩

theorem recGet_map_update (upd : FuzzyProduct → FuzzyProduct) (key : String)
    (acc : JsRecord FuzzyProduct) :
    recGet (acc.map (fun kv => if kv.1 = key then (kv.1, upd kv.2) else kv)) key
      = (recGet acc key).map upd := by
  induction acc with
  | nil => rfl
  | cons kv rest ih =>
      by_cases hc : kv.1 = key
      · simp [recGet, hc]
      · simp only [List.map_cons, if_neg hc]
        simp [recGet, hc, ih]

theorem recGet_map_update_other (upd : FuzzyProduct → FuzzyProduct) (key k2 : String)
    (hne : k2 ≠ key) (acc : JsRecord FuzzyProduct) :
    recGet (acc.map (fun kv => if kv.1 = key then (kv.1, upd kv.2) else kv)) k2
      = recGet acc k2 := by
  induction acc with
  | nil => rfl
  | cons kv rest ih =>
      by_cases hc : kv.1 = key
      · have hkk : kv.1 ≠ k2 := by rw [hc]; exact fun h => hne h.symm
        simp only [List.map_cons, if_pos hc]
        simp [recGet, hkk, ih]
      · simp only [List.map_cons, if_neg hc]
        by_cases h2 : kv.1 = k2
        · simp [recGet, h2]
        · simp [recGet, h2, ih]

theorem recKeys_map_update {β : Type} (upd : β → β) (key : String) (acc : JsRecord β) :
    recKeys (acc.map (fun kv => if kv.1 = key then (kv.1, upd kv.2) else kv))
      = recKeys acc := by
  induction acc with
  | nil => rfl
  | cons kv rest ih =>
      simp only [recKeys, List.map_cons] at ih ⊢
      by_cases hc : kv.1 = key
      · rw [if_pos hc]
        simpa using ih
      · rw [if_neg hc]
        simpa using ih

/-- C7: when a store entry's composite key already exists, the merge step
modifies only the `storeInfo` field of the existing record; every other field
and every other entry of the record, and the key set, are unchanged — for any
store entry `m`, however different its fields. -/
theorem addStoreProduct_frame (acc : JsRecord FuzzyProduct)
    (m : ModuleStoreListCacheEntry) (product : String) (w : FuzzyProduct) (k2 : String)
    (hk : prodKey m.id product ∈ recKeys acc)
    (hw : recGet acc (prodKey m.id product) = some w)
    (hk2 : k2 ≠ prodKey m.id product) :
    recGet (addStoreProduct acc m product) (prodKey m.id product)
      = some { w with storeInfo := some m }
    ∧ recGet (addStoreProduct acc m product) k2 = recGet acc k2
    ∧ recKeys (addStoreProduct acc m product) = recKeys acc := by
  have hdef : addStoreProduct acc m product
      = acc.map (fun kv => if kv.1 = prodKey m.id product
          then (kv.1, { kv.2 with storeInfo := some m }) else kv) := by
    simp only [addStoreProduct]
    rw [if_pos hk]
  refine ⟨?_, ?_, ?_⟩
  · rw [hdef, recGet_map_update (fun v => { v with storeInfo := some m }) _ acc, hw]
    rfl
  · rw [hdef, recGet_map_update_other (fun v => { v with storeInfo := some m }) _ _ hk2 acc]
  · rw [hdef, recKeys_map_update (fun v => { v with storeInfo := some m })
      (prodKey m.id product) acc]

/-- Witness for C7 at the spec scenario's `x-p1` key. -/
theorem addStoreProduct_frame_witness :
    recGet (addStoreProduct (foldInstalled [instFooX]) storeFooX "p1") (prodKey storeFooX.id "p1")
      = some { mkInstalledProduct instFooX "p1" with storeInfo := some storeFooX }
    ∧ recGet (addStoreProduct (foldInstalled [instFooX]) storeFooX "p1") "zz"
      = recGet (foldInstalled [instFooX]) "zz"
    ∧ recKeys (addStoreProduct (foldInstalled [instFooX]) storeFooX "p1")
      = recKeys (foldInstalled [instFooX]) :=
  addStoreProduct_frame (foldInstalled [instFooX]) storeFooX "p1"
    (mkInstalledProduct instFooX "p1") "zz" (by decide) (by decide) (by decide)

theorem cleanup_nextGen (s : HookState) : (cleanup s).nextGen = s.nextGen := by
  unfold cleanup
  split <;> rfl

theorem cleanup_current (s : HookState) : (cleanup s).current = none := by
  unfold cleanup
  rcases hc : s.current with _ | gm
  · exact hc
  · rfl

theorem subCount_append (l1 l2 : List SocketMsg) :
    subCount (l1 ++ l2) = subCount l1 + subCount l2 := by
  simp [subCount, List.filter_append]

theorem unsubCount_append (l1 l2 : List SocketMsg) :
    unsubCount (l1 ++ l2) = unsubCount l1 + unsubCount l2 := by
  simp [unsubCount, List.filter_append]

theorem subCount_one_sub (m : String) : subCount [SocketMsg.subscribe m] = 1 := rfl

theorem subCount_one_unsub (m : String) : subCount [SocketMsg.unsubscribe m] = 0 := rfl

theorem unsubCount_one_sub (m : String) : unsubCount [SocketMsg.subscribe m] = 0 := rfl

theorem unsubCount_one_unsub (m : String) : unsubCount [SocketMsg.unsubscribe m] = 1 := rfl

theorem subInv_init : subInv initState := rfl

theorem subInv_cleanup (s : HookState) (h : subInv s) : subInv (cleanup s) := by
  unfold subInv at h ⊢
  rcases hc : s.current with _ | ⟨g, m⟩
  · rw [hc] at h
    simp only [cleanup, hc]
    simpa using h
  · rw [hc] at h
    simp only [cleanup, hc]
    simp only [subCount_append, unsubCount_append, subCount_one_unsub, unsubCount_one_unsub]
    simp at h ⊢
    omega

theorem subInv_runEffect (s : HookState) (mid : Option String)
    (hc : s.current = none) (h : subInv s) : subInv (runEffect s mid) := by
  unfold subInv at h ⊢
  rw [hc] at h
  rcases mid with _ | m
  · simp only [runEffect]
    simpa using h
  · simp only [runEffect, subCount_append, unsubCount_append,
      subCount_one_sub, unsubCount_one_sub]
    simp at h ⊢
    omega

theorem subInv_step (s : HookState) (e : Event) (h : subInv s) : subInv (step s e) := by
  cases e with
  | setModule mid =>
      simp only [step]
      by_cases hd : s.lastDep = some mid
      · rw [if_pos hd]; exact h
      · rw [if_neg hd]
        exact subInv_runEffect _ mid (cleanup_current s) (subInv_cleanup s h)
  | unmount =>
      simp only [step]
      exact subInv_cleanup s h
  | response g d =>
      simp only [step]
      split
      · exact h
      · exact h
  | push mid d =>
      simp only [step]
      split
      · split
        · exact h
        · exact h
      · exact h

theorem subInv_runTrace (evs : List Event) : subInv (runTrace initState evs) := by
  unfold runTrace
  exact foldl_inv subInv step (fun b a hb => subInv_step b a hb) evs initState subInv_init

theorem nextGen_destroyed_after_switch (s : HookState) (a b : String)
    (hdep : s.lastDep ≠ some (some a)) (hab : a ≠ b) :
    s.nextGen ∈
      (step (step s (Event.setModule (some a)))
        (Event.setModule (some b))).destroyedGens := by
  have h1 : step s (Event.setModule (some a))
      = { cleanup s with
          lastDep := some (some a)
          cache := none
          current := some ((cleanup s).nextGen, a)
          nextGen := (cleanup s).nextGen + 1
          log := (cleanup s).log ++ [SocketMsg.subscribe a] } := by
    simp only [step]
    rw [if_neg hdep]
    rfl
  rw [h1]
  simp only [step]
  split
  · rename_i hbad
    exfalso
    simp at hbad
    exact hab hbad
  · show s.nextGen ∈ (cleanup s).nextGen :: (cleanup s).destroyedGens
    rw [cleanup_nextGen]
    exact List.mem_cons_self _ _

/-- C3: a late subscribe response issued for module `a` is discarded after the
module identifier changed to `b`; a push notification is discarded when its
module id does not match the active one (or no subscription is active); and in
every reachable state at most one subscription is active: the subscribes
exceed the unsubscribes by exactly one when a subscription is live, zero
otherwise. -/
theorem useModuleStoreInfo_staleGuard (evs : List Event) (s : HookState)
    (hs : s = runTrace initState evs) (a b mid m : String) (g : Nat) (d : StoreData)
    (hdep : s.lastDep ≠ some (some a)) (hab : a ≠ b) :
    step (step (step s (Event.setModule (some a))) (Event.setModule (some b)))
        (Event.response s.nextGen d)
      = step (step s (Event.setModule (some a))) (Event.setModule (some b))
    ∧ (s.current = some (g, m) → mid ≠ m → step s (Event.push mid d) = s)
    ∧ (s.current = none → step s (Event.push mid d) = s)
    ∧ subCount s.log = unsubCount s.log + (if s.current.isSome then 1 else 0) := by
  refine ⟨?_, ?_, ?_, ?_⟩
  · have hmem := nextGen_destroyed_after_switch s a b hdep hab
    show (if s.nextGen ∈
          (step (step s (Event.setModule (some a)))
            (Event.setModule (some b))).destroyedGens
        then step (step s (Event.setModule (some a))) (Event.setModule (some b))
        else { step (step s (Event.setModule (some a))) (Event.setModule (some b)) with
               cache := some d })
      = step (step s (Event.setModule (some a))) (Event.setModule (some b))
    rw [if_pos hmem]
  · intro hcur hne
    simp only [step]
    rw [hcur]
    simp [hne]
  · intro hcur
    simp only [step]
    rw [hcur]
  · subst hs
    exact subInv_runTrace evs

/-- Witness for C3 from the reachable state with one live subscription to
module `X`. -/
theorem useModuleStoreInfo_staleGuard_witness :
    step (step (step traceX (Event.setModule (some "A"))) (Event.setModule (some "B")))
        (Event.response traceX.nextGen sampleData)
      = step (step traceX (Event.setModule (some "A"))) (Event.setModule (some "B"))
    ∧ step traceX (Event.push "Y" sampleData) = traceX
    ∧ subCount traceX.log
        = unsubCount traceX.log + (if traceX.current.isSome then 1 else 0) := by
  obtain ⟨h1, h2, h3, h4⟩ :=
    useModuleStoreInfo_staleGuard [Event.setModule (some "X")] traceX rfl
      "A" "B" "Y" "X" 0 sampleData (by decide) (by decide)
  exact ⟨h1, h2 (by decide) (by decide), h4⟩

/-- C8 (amended): on a module-identifier change or teardown while a
subscription for `m` is active, the unsubscribe for `m` is issued and the
cache is reset to null before any new subscribe; when no subscription is
active (previous identifier undefined) no cleanup runs (see the
counterexample). -/
theorem useModuleStoreInfo_unsub_on_change (s : HookState) (g : Nat) (m : String)
    (mid : Option String) (hc : s.current = some (g, m)) (hdep : s.lastDep ≠ some mid) :
    (step s (Event.setModule mid)).log
      = s.log ++ SocketMsg.unsubscribe m ::
          (match mid with | some m2 => [SocketMsg.subscribe m2] | none => [])
    ∧ (cleanup s).cache = none
    ∧ (step s (Event.setModule mid)).cache = none
    ∧ (step s Event.unmount).log = s.log ++ [SocketMsg.unsubscribe m]
    ∧ (step s Event.unmount).cache = none := by
  refine ⟨?_, ?_, ?_, ?_, ?_⟩
  · rcases mid with _ | m2 <;> simp [step, hdep, runEffect, cleanup, hc]
  · simp [cleanup, hc]
  · rcases mid with _ | m2 <;> simp [step, hdep, runEffect, cleanup, hc]
  · simp [step, cleanup, hc]
  · simp [step, cleanup, hc]

/-- Witness for C8's amended theorem: changing `X` to `Y` with a live
subscription. -/
theorem useModuleStoreInfo_unsub_on_change_witness :
    (step traceX (Event.setModule (some "Y"))).log
      = traceX.log ++ SocketMsg.unsubscribe "X" :: [SocketMsg.subscribe "Y"]
    ∧ (cleanup traceX).cache = none
    ∧ (step traceX (Event.setModule (some "Y"))).cache = none
    ∧ (step traceX Event.unmount).log = traceX.log ++ [SocketMsg.unsubscribe "X"]
    ∧ (step traceX Event.unmount).cache = none :=
  useModuleStoreInfo_unsub_on_change traceX 0 "X" (some "Y") (by decide) (by decide)

/-- C8 counterexample: changing the module identifier from undefined to
`"A"` re-runs the effect and issues the new subscribe, but no unsubscribe is
issued at all during this change — the effect run with an undefined id
registered no cleanup, so the unsubscribe is not unconditional. -/
theorem useModuleStoreInfo_unsub_cex :
    (runTrace initState [Event.setModule none, Event.setModule (some "A")]).log
      = [SocketMsg.subscribe "A"]
    ∧ unsubCount
        (runTrace initState [Event.setModule none, Event.setModule (some "A")]).log
      = 0 := by
  exact ⟨rfl, rfl⟩

/-- C10: the effect run with an undefined module identifier resets the cache
to null (so the hook returns null), emits no subscribe and no unsubscribe,
and registers no subscription; the whole render step does the same when no
subscription was active, and a following teardown emits nothing either. -/
theorem useModuleStoreInfo_undefined (s : HookState)
    (hdep : s.lastDep ≠ some none) (hc : s.current = none) :
    (runEffect s none).cache = none
    ∧ (runEffect s none).log = s.log
    ∧ (runEffect s none).current = none
    ∧ (step s (Event.setModule none)).cache = none
    ∧ (step s (Event.setModule none)).log = s.log
    ∧ (step s (Event.setModule none)).current = none
    ∧ (step (step s (Event.setModule none)) Event.unmount).log = s.log := by
  refine ⟨rfl, rfl, rfl, ?_, ?_, ?_, ?_⟩ <;>
    simp [step, hdep, runEffect, cleanup, hc]

/-- Witness for C10 at the freshly mounted state. -/
theorem useModuleStoreInfo_undefined_witness :
    (runEffect initState none).cache = none
    ∧ (runEffect initState none).log = initState.log
    ∧ (runEffect initState none).current = none
    ∧ (step initState (Event.setModule none)).cache = none
    ∧ (step initState (Event.setModule none)).log = initState.log
    ∧ (step initState (Event.setModule none)).current = none
    ∧ (step (step initState (Event.setModule none)) Event.unmount).log = initState.log :=
  useModuleStoreInfo_undefined initState (by decide) (by decide)

theorem recKeys_map_set {β : Type} (k : String) (v : β) (acc : JsRecord β) :
    recKeys (acc.map (fun kv => if kv.1 = k then (k, v) else kv)) = recKeys acc := by
  induction acc with
  | nil => rfl
  | cons kv rest ih =>
      simp only [recKeys, List.map_cons] at ih ⊢
      by_cases hc : kv.1 = k
      · rw [if_pos hc]
        simp [ih, hc]
      · rw [if_neg hc]
        simpa using ih

theorem recKeys_recordSet {β : Type} (acc : JsRecord β) (k : String) (v : β) :
    recKeys (recordSet acc k v) = insKey (recKeys acc) k := by
  unfold recordSet insKey
  by_cases hc : k ∈ recKeys acc
  · rw [if_pos hc, if_pos hc]
    exact recKeys_map_set k v acc
  · rw [if_neg hc, if_neg hc]
    simp [recKeys]

theorem recKeys_addStoreProduct (acc : JsRecord FuzzyProduct)
    (m : ModuleStoreListCacheEntry) (p : String) :
    recKeys (addStoreProduct acc m p) = insKey (recKeys acc) (prodKey m.id p) := by
  simp only [addStoreProduct, insKey]
  by_cases hc : prodKey m.id p ∈ recKeys acc
  · rw [if_pos hc, if_pos hc]
    exact recKeys_map_update (fun v => { v with storeInfo := some m }) (prodKey m.id p) acc
  · rw [if_neg hc, if_neg hc]
    simp [recKeys]

theorem recKeys_foldl {α β : Type} (g : JsRecord β → α → JsRecord β) (keyOf : α → String)
    (hg : ∀ acc a, recKeys (g acc a) = insKey (recKeys acc) (keyOf a)) :
    ∀ (l : List α) (acc : JsRecord β),
      recKeys (l.foldl g acc) = insKeysAll (l.map keyOf) (recKeys acc)
  | [], _ => rfl
  | a :: l, acc => by
      rw [List.foldl_cons, recKeys_foldl g keyOf hg l (g acc a), hg]
      rfl

theorem insKeysAll_append (a b init : List String) :
    insKeysAll (a ++ b) init = insKeysAll b (insKeysAll a init) := by
  simp [insKeysAll]

theorem recKeys_addInstalledModule (acc : JsRecord FuzzyProduct) (m : NewClientModuleInfo) :
    recKeys (addInstalledModule acc m)
      = insKeysAll (m.baseInfo.products.map (prodKey m.baseInfo.id)) (recKeys acc) := by
  unfold addInstalledModule
  exact recKeys_foldl _ (prodKey m.baseInfo.id)
    (fun acc p => recKeys_recordSet acc _ _) m.baseInfo.products acc

theorem recKeys_addStoreModule (acc : JsRecord FuzzyProduct)
    (m : ModuleStoreListCacheEntry) :
    recKeys (addStoreModule acc m)
      = insKeysAll (m.products.map (prodKey m.id)) (recKeys acc) := by
  unfold addStoreModule
  exact recKeys_foldl _ (prodKey m.id)
    (fun acc p => recKeys_addStoreProduct acc m p) m.products acc

theorem recKeys_foldInstalled_from (installed : List NewClientModuleInfo) :
    ∀ acc, recKeys (installed.foldl addInstalledModule acc)
      = insKeysAll (installedKeys installed) (recKeys acc) := by
  induction installed with
  | nil => intro acc; rfl
  | cons m rest ih =>
      intro acc
      have hsplit : installedKeys (m :: rest)
          = m.baseInfo.products.map (prodKey m.baseInfo.id) ++ installedKeys rest := by
        simp [installedKeys]
      rw [List.foldl_cons, ih, recKeys_addInstalledModule, hsplit, insKeysAll_append]

theorem recKeys_foldStore_from (store : List ModuleStoreListCacheEntry) :
    ∀ acc, recKeys (foldStore acc store)
      = insKeysAll (storeKeysOf store) (recKeys acc) := by
  induction store with
  | nil => intro acc; rfl
  | cons m rest ih =>
      intro acc
      have hsplit : storeKeysOf (m :: rest)
          = m.products.map (prodKey m.id) ++ storeKeysOf rest := by
        simp [storeKeysOf]
      have hfold : foldStore acc (m :: rest) = foldStore (addStoreModule acc m) rest := rfl
      rw [hfold, ih, recKeys_addStoreModule, hsplit, insKeysAll_append]

theorem insKeysAll_of_nodup : ∀ (ks : List String), ks.Nodup →
    ∀ init, insKeysAll ks init = init ++ ks.filter (fun k => decide (k ∉ init))
  | [], _, init => by simp [insKeysAll]
  | k :: ks, hks, init => by
      rcases List.nodup_cons.mp hks with ⟨hk, hks2⟩
      have h1 : insKeysAll (k :: ks) init = insKeysAll ks (insKey init k) := rfl
      rw [h1]
      by_cases hc : k ∈ init
      · rw [show insKey init k = init from if_pos hc]
        rw [insKeysAll_of_nodup ks hks2 init, List.filter_cons]
        simp [hc]
      · rw [show insKey init k = init ++ [k] from if_neg hc]
        rw [insKeysAll_of_nodup ks hks2 (init ++ [k]), List.filter_cons]
        have hfeq : ks.filter (fun x => decide (x ∉ init ++ [k]))
            = ks.filter (fun x => decide (x ∉ init)) := by
          apply List.filter_congr
          intro x hx
          have hxk : x ≠ k := fun he => hk (he ▸ hx)
          rw [decide_eq_decide]
          simp [List.mem_append, hxk]
        rw [hfeq]
        simp [hc]

theorem mem_insKey (ks : List String) (k k2 : String) (h : k ∈ ks) : k ∈ insKey ks k2 := by
  unfold insKey
  split
  · exact h
  · exact List.mem_append_left _ h

theorem mem_recKeys_addStoreProduct (acc : JsRecord FuzzyProduct)
    (m : ModuleStoreListCacheEntry) (p k : String) (h : k ∈ recKeys acc) :
    k ∈ recKeys (addStoreProduct acc m p) := by
  rw [recKeys_addStoreProduct]
  exact mem_insKey _ _ _ h

theorem keyAll_addStoreProduct_pres (acc : JsRecord FuzzyProduct)
    (m : ModuleStoreListCacheEntry) (p k : String) (Q : FuzzyProduct → Prop)
    (hk : k ∈ recKeys acc)
    (hQ : ∀ v, Q v → Q { v with storeInfo := some m })
    (h : keyAll acc k Q) : keyAll (addStoreProduct acc m p) k Q := by
  intro kv hkv hkey
  simp only [addStoreProduct] at hkv
  split at hkv
  · rcases List.mem_map.mp hkv with ⟨kv0, h0, heq⟩
    by_cases hc : kv0.1 = prodKey m.id p
    · rw [if_pos hc] at heq
      rw [← heq] at hkey ⊢
      exact hQ kv0.2 (h kv0 h0 hkey)
    · rw [if_neg hc] at heq
      rw [← heq] at hkey ⊢
      exact h kv0 h0 hkey
  · rename_i hnot
    rcases List.mem_append.mp hkv with h2 | h2
    · exact h kv h2 hkey
    · exfalso
      rw [List.mem_singleton.mp h2] at hkey
      have hkey2 : prodKey m.id p = k := hkey
      rw [hkey2] at hnot
      exact hnot hk

theorem keyAll_addStoreProduct_self (acc : JsRecord FuzzyProduct)
    (m : ModuleStoreListCacheEntry) (p : String)
    (hk : prodKey m.id p ∈ recKeys acc) :
    keyAll (addStoreProduct acc m p) (prodKey m.id p)
      (fun v => v.storeInfo.isSome = true) := by
  intro kv hkv hkey
  simp only [addStoreProduct] at hkv
  rw [if_pos hk] at hkv
  rcases List.mem_map.mp hkv with ⟨kv0, h0, heq⟩
  by_cases hc : kv0.1 = prodKey m.id p
  · rw [if_pos hc] at heq
    rw [← heq]
    rfl
  · rw [if_neg hc] at heq
    exfalso
    rw [← heq] at hkey
    exact hc hkey

theorem keyAll_foldStore_pres (store : List ModuleStoreListCacheEntry) (k : String)
    (Q : FuzzyProduct → Prop)
    (hQ : ∀ (m : ModuleStoreListCacheEntry) v, Q v → Q { v with storeInfo := some m })
    (acc : JsRecord FuzzyProduct) (hk : k ∈ recKeys acc) (h : keyAll acc k Q) :
    k ∈ recKeys (foldStore acc store) ∧ keyAll (foldStore acc store) k Q := by
  unfold foldStore
  refine foldl_inv (fun acc => k ∈ recKeys acc ∧ keyAll acc k Q) addStoreModule
    ?_ store acc ⟨hk, h⟩
  intro acc2 m hp
  unfold addStoreModule
  exact foldl_inv (fun acc => k ∈ recKeys acc ∧ keyAll acc k Q)
    (fun acc p => addStoreProduct acc m p)
    (fun acc3 p hp3 => ⟨mem_recKeys_addStoreProduct acc3 m p k hp3.1,
      keyAll_addStoreProduct_pres acc3 m p k Q hp3.1 (hQ m) hp3.2⟩)
    m.products acc2 hp

theorem keyAll_addStoreModule_est (m : ModuleStoreListCacheEntry) (k : String) :
    ∀ (products : List String) (acc : JsRecord FuzzyProduct),
      k ∈ recKeys acc → k ∈ products.map (prodKey m.id) →
      k ∈ recKeys (products.foldl (fun acc p => addStoreProduct acc m p) acc)
      ∧ keyAll (products.foldl (fun acc p => addStoreProduct acc m p) acc) k
          (fun v => v.storeInfo.isSome = true)
  | [], _, _, hin => absurd hin (by simp)
  | p :: ps, acc, hk, hin => by
      rw [List.foldl_cons]
      by_cases hc : k = prodKey m.id p
      · have hest : keyAll (addStoreProduct acc m p) k
            (fun v => v.storeInfo.isSome = true) := by
          rw [hc]
          exact keyAll_addStoreProduct_self acc m p (hc ▸ hk)
        have hk2 : k ∈ recKeys (addStoreProduct acc m p) :=
          mem_recKeys_addStoreProduct acc m p k hk
        exact foldl_inv
          (fun acc => k ∈ recKeys acc ∧ keyAll acc k (fun v => v.storeInfo.isSome = true))
          (fun acc p => addStoreProduct acc m p)
          (fun acc3 p3 hp3 => ⟨mem_recKeys_addStoreProduct acc3 m p3 k hp3.1,
            keyAll_addStoreProduct_pres acc3 m p3 k _ hp3.1 (fun v _ => rfl) hp3.2⟩)
          ps (addStoreProduct acc m p) ⟨hk2, hest⟩
      · have hin2 : k ∈ ps.map (prodKey m.id) := by
          simp only [List.map_cons, List.mem_cons] at hin
          rcases hin with h1 | h1
          · exact absurd h1 hc
          · exact h1
        exact keyAll_addStoreModule_est m k ps (addStoreProduct acc m p)
          (mem_recKeys_addStoreProduct acc m p k hk) hin2

theorem keyAll_foldStore_est (k : String) :
    ∀ (store : List ModuleStoreListCacheEntry) (acc : JsRecord FuzzyProduct),
      k ∈ recKeys acc → k ∈ storeKeysOf store →
      keyAll (foldStore acc store) k (fun v => v.storeInfo.isSome = true)
  | [], _, _, hin => absurd hin (by simp [storeKeysOf])
  | m :: rest, acc, hk, hin => by
      have hsplit : k ∈ m.products.map (prodKey m.id) ∨ k ∈ storeKeysOf rest := by
        simpa [storeKeysOf] using hin
      have hfold : foldStore acc (m :: rest) = foldStore (addStoreModule acc m) rest := rfl
      rw [hfold]
      rcases hsplit with hin1 | hin2
      · obtain ⟨hk2, hall⟩ := keyAll_addStoreModule_est m k m.products acc hk hin1
        exact (keyAll_foldStore_pres rest k (fun v => v.storeInfo.isSome = true)
          (fun m2 v _ => rfl) (addStoreModule acc m) hk2 hall).2
      · have hk2 : k ∈ recKeys (addStoreModule acc m) := by
          unfold addStoreModule
          exact foldl_inv (fun acc => k ∈ recKeys acc) (fun acc p => addStoreProduct acc m p)
            (fun a p hp => mem_recKeys_addStoreProduct a m p k hp) m.products acc hk
        exact keyAll_foldStore_est k rest (addStoreModule acc m) hk2 hin2

theorem exists_of_mem_recKeys {β : Type} (acc : JsRecord β) (k : String)
    (h : k ∈ recKeys acc) : ∃ kv ∈ acc, kv.1 = k := by
  rcases List.mem_map.mp h with ⟨kv, hkv, hk⟩
  exact ⟨kv, hkv, hk⟩

theorem keyConsistent_useAll (installed : List NewClientModuleInfo)
    (store : List ModuleStoreListCacheEntry) :
    ∀ kv ∈ foldStore (foldInstalled installed) store,
      prodKey kv.2.id kv.2.product = kv.1 :=
  pairP_foldStore (fun kv => prodKey kv.2.id kv.2.product = kv.1) store _
    (pairP_foldInstalled _ installed (fun _ _ => rfl))
    (fun _ _ h => h)
    (fun _ _ => rfl)

/-- C5 (amended): with duplicate-free composite key sets on each side, the
merged product count is the size of the union of the composite keys
`id-product` (stated both as the length of `keyUnion` and as the card of the
finset union); when the two composite key sets are disjoint it is the sum of
the two product counts; and every key present in both sides yields a record
with both `installedInfo` and `storeInfo` populated. -/
theorem useAllConnectionProducts_count (installed : List NewClientModuleInfo)
    (store : List ModuleStoreListCacheEntry)
    (hi : (installedKeys installed).Nodup) (hs : (storeKeysOf store).Nodup) :
    (useAllConnectionProducts installed store).length
      = (keyUnion (installedKeys installed) (storeKeysOf store)).length
    ∧ (useAllConnectionProducts installed store).length
      = ((installedKeys installed) ++ (storeKeysOf store)).toFinset.card
    ∧ ((installedKeys installed).Disjoint (storeKeysOf store) →
        (useAllConnectionProducts installed store).length
          = (installedKeys installed).length + (storeKeysOf store).length)
    ∧ (∀ k, k ∈ installedKeys installed → k ∈ storeKeysOf store →
        ∃ p ∈ useAllConnectionProducts installed store,
          prodKey p.id p.product = k ∧ p.installedInfo.isSome = true
            ∧ p.storeInfo.isSome = true) := by
  have hphase1 : recKeys (foldInstalled installed) = installedKeys installed := by
    have h1 : recKeys (foldInstalled installed)
        = insKeysAll (installedKeys installed) [] :=
      recKeys_foldInstalled_from installed []
    rw [h1, insKeysAll_of_nodup _ hi []]
    simp
  have hkeys : recKeys (foldStore (foldInstalled installed) store)
      = keyUnion (installedKeys installed) (storeKeysOf store) := by
    have h3 := recKeys_foldStore_from store (foldInstalled installed)
    rw [hphase1] at h3
    rw [h3, insKeysAll_of_nodup _ hs (installedKeys installed)]
    rfl
  have hlen : (useAllConnectionProducts installed store).length
      = (keyUnion (installedKeys installed) (storeKeysOf store)).length := by
    have : (useAllConnectionProducts installed store).length
        = (recKeys (foldStore (foldInstalled installed) store)).length := by
      simp [useAllConnectionProducts, recKeys]
    rw [this, hkeys]
  have hsubset : ∀ x ∈ (storeKeysOf store).filter
      (fun k => decide (k ∉ installedKeys installed)), x ∉ installedKeys installed := by
    intro x hx
    have := (List.mem_filter.mp hx).2
    simpa using this
  have hnodupU : (keyUnion (installedKeys installed) (storeKeysOf store)).Nodup := by
    refine List.Nodup.append hi (List.Nodup.filter _ hs) ?_
    intro a ha haf
    exact hsubset a haf ha
  refine ⟨hlen, ?_, ?_, ?_⟩
  · rw [hlen, ← List.toFinset_card_of_nodup hnodupU]
    congr 1
    apply Finset.ext
    intro x
    simp only [List.mem_toFinset, keyUnion, List.mem_append,
      List.mem_filter, decide_eq_true_eq]
    tauto
  · intro hdisj
    rw [hlen]
    have hfeq : (storeKeysOf store).filter (fun k => decide (k ∉ installedKeys installed))
        = storeKeysOf store := by
      rw [List.filter_eq_self]
      intro a ha
      simpa using fun hmem => hdisj hmem ha
    show ((installedKeys installed)
        ++ (storeKeysOf store).filter (fun k => decide (k ∉ installedKeys installed))).length
      = (installedKeys installed).length + (storeKeysOf store).length
    rw [hfeq, List.length_append]
  · intro k hkI hkS
    have hk1 : k ∈ recKeys (foldInstalled installed) := by rw [hphase1]; exact hkI
    have hallInst : keyAll (foldInstalled installed) k
        (fun v => v.installedInfo.isSome = true) :=
      fun kv hkv _ =>
        pairP_foldInstalled (fun kv => kv.2.installedInfo.isSome = true) installed
          (fun m p => rfl) kv hkv
    obtain ⟨hkF, hallInstF⟩ := keyAll_foldStore_pres store k _
      (fun m v hv => hv) (foldInstalled installed) hk1 hallInst
    have hallStoreF := keyAll_foldStore_est k store (foldInstalled installed) hk1 hkS
    obtain ⟨kv, hkv, hkvk⟩ := exists_of_mem_recKeys _ k hkF
    refine ⟨kv.2, List.mem_map_of_mem _ hkv, ?_, hallInstF kv hkv hkvk,
      hallStoreF kv hkv hkvk⟩
    exact (keyConsistent_useAll installed store kv hkv).trans hkvk

/-- Witness for C5 at the spec scenario (overlapping key `x-p1`). -/
theorem useAllConnectionProducts_count_witness :
    (useAllConnectionProducts [instFooX] [storeFooX]).length
      = (keyUnion (installedKeys [instFooX]) (storeKeysOf [storeFooX])).length
    ∧ (∃ p ∈ useAllConnectionProducts [instFooX] [storeFooX],
        prodKey p.id p.product = "x-p1" ∧ p.installedInfo.isSome = true
          ∧ p.storeInfo.isSome = true) := by
  obtain ⟨h1, h2, h3, h4⟩ :=
    useAllConnectionProducts_count [instFooX] [storeFooX] (by decide) (by decide)
  exact ⟨h1, h4 "x-p1" (by decide) (by decide)⟩

/-- C5 counterexample: the installed module `{id:"a", products:["b-c"]}` and
the store entry `{id:"a-b", products:["c"]}` are disjoint as `(id, product)`
pair sets, their product counts sum to 2, yet both map to the composite key
`"a-b-c"`, so the merge produces a single record — the claimed count equals
the sum only for disjoint composite keys, not disjoint module sets. -/
theorem useAllConnectionProducts_count_cex :
    (installedPairs [instAmod]).inter (storePairs [storeABmod]) = []
    ∧ (installedPairs [instAmod]).length + (storePairs [storeABmod]).length = 2
    ∧ (useAllConnectionProducts [instAmod] [storeABmod]).length = 1 := by
  refine ⟨by decide, by decide, by decide⟩

end Companion
